import Mathlib

/-!
Verification of the conjure-rust code generator's semantic context
(`conjure-codegen/src/context.rs`), object emitter
(`conjure-codegen/src/objects/object.rs`) and the serde glue of two
generated types, against the repository specification.

The Rust code is shallowly embedded: every definition below is a direct
translation of the corresponding Rust item (the doc comment names it).
Stateful memoization cells (`Cell<Option<bool>>`) become an explicitly
threaded association list; functions whose Rust counterparts can recurse
through the type environment take a fuel parameter and return `none` on
fuel exhaustion or on a `HashMap` index panic, so that non-termination of
the Rust original is reflected as `none` for every fuel.
-/

namespace Conjure

/-! ### Case conversion (the `heck` 0.3 dependency)

`context.rs` canonicalizes identifiers with `heck`'s `to_snake_case` /
`to_camel_case`. The functions below port `heck` 0.3's `transform` loop
for a single word; this is faithful for strings made of ASCII
alphanumerics and underscores (which is what every identifier and package
component in the claims is), where `unicode_words` yields the whole
string as the single word. -/

inductive WordMode where
  | boundary
  | lowercase
  | uppercase
deriving DecidableEq, Repr

/-- Port of the scanning loop inside `heck::transform`: splits one word into
case segments. `c` is the current character, `rest` the characters after it,
`cur` the characters of the current segment (`word[init..i]`), `mode` the
case of the previous cased character. -/
def heckSplit (c : Char) (rest : List Char) (cur : List Char) (mode : WordMode) :
    List (List Char) :=
  match rest with
  | [] =>
    -- last character: `with_word(&word[init..])` unless it is a skipped '_'
    if c = '_' then [] else [cur ++ [c]]
  | next :: rest' =>
    if c = '_' then
      -- `if init == i { init += 1; } continue`
      heckSplit next rest' (if cur.isEmpty then [] else cur ++ [c]) mode
    else
      let nextMode :=
        if c.isLower then WordMode.lowercase
        else if c.isUpper then WordMode.uppercase
        else mode
      if next = '_' ∨ (nextMode = WordMode.lowercase ∧ next.isUpper) then
        -- word boundary after the current character
        (cur ++ [c]) :: heckSplit next rest' [] WordMode.boundary
      else if mode = WordMode.uppercase ∧ c.isUpper ∧ next.isLower then
        -- word boundary before the current character
        cur :: heckSplit next rest' [c] WordMode.boundary
      else
        heckSplit next rest' (cur ++ [c]) nextMode

/-- `heck::SnakeCase::to_snake_case`: lowercase every segment, join with `_`. -/
def toSnakeCase (s : String) : String :=
  match s.toList with
  | [] => ""
  | c :: rest =>
    String.intercalate "_"
      ((heckSplit c rest [] WordMode.boundary).map
        (fun w => String.mk (w.map Char.toLower)))

/-- `heck::CamelCase`'s `capitalize`: uppercase the first character of a
segment, lowercase the rest. -/
def capitalizeWord (w : List Char) : List Char :=
  match w with
  | [] => []
  | c :: rest => c.toUpper :: rest.map Char.toLower

/-- `heck::CamelCase::to_camel_case`: capitalize every segment, no separator. -/
def toCamelCase (s : String) : String :=
  match s.toList with
  | [] => ""
  | c :: rest =>
    String.join ((heckSplit c rest [] WordMode.boundary).map
      (fun w => String.mk (capitalizeWord w)))

/-! ### IR data model (`conjure-codegen/src/types`, as consumed by context.rs) -/

inductive PrimitiveType where
  | string
  | datetime
  | integer
  | double
  | safelong
  | binary
  | boolean
  | any
  | uuid
  | rid
  | bearertoken
deriving DecidableEq, Repr

structure TypeName where
  package : String
  name : String
deriving DecidableEq, Repr

/-- The IR `Type` (named `CType` here because `Type` is reserved in Lean). -/
inductive CType where
  | primitive (p : PrimitiveType)
  | optional (itemType : CType)
  | list (itemType : CType)
  | set (itemType : CType)
  | map (keyType valueType : CType)
  | reference (name : TypeName)
  | external (externalReference : TypeName) (fallback : CType)
deriving DecidableEq, Repr

structure FieldDefinition where
  fieldName : String
  type_ : CType
deriving DecidableEq, Repr

structure AliasDefinition where
  typeName : TypeName
  /-- the inner type, `AliasDefinition::alias()` (`alias` is a Lean keyword) -/
  alias_ : CType
deriving DecidableEq, Repr

structure EnumDefinition where
  typeName : TypeName
  values : List String
deriving DecidableEq, Repr

structure ObjectDefinition where
  typeName : TypeName
  fields : List FieldDefinition
deriving DecidableEq, Repr

structure UnionDefinition where
  typeName : TypeName
  union_ : List FieldDefinition
deriving DecidableEq, Repr

inductive TypeDefinition where
  | alias (d : AliasDefinition)
  | enum (d : EnumDefinition)
  | object (d : ObjectDefinition)
  | union (d : UnionDefinition)
deriving DecidableEq, Repr

def TypeDefinition.typeName : TypeDefinition → TypeName
  | .alias d => d.typeName
  | .enum d => d.typeName
  | .object d => d.typeName
  | .union d => d.typeName

/-! ### `ident_name`, `type_name`, module paths (context.rs lines 842-893) -/

/-- The reserved-word table of `Context::ident_name` (strict, reserved and
weak Rust keywords). -/
def isRustKeyword (s : String) : Bool :=
  ["as", "break", "const", "continue", "crate", "else", "enum", "extern",
   "false", "fn", "for", "if", "impl", "in", "let", "loop", "match", "mod",
   "move", "mut", "pub", "ref", "return", "self", "static", "struct",
   "super", "trait", "true", "type", "unsafe", "use", "where", "while",
   "abstract", "become", "box", "do", "final", "macro", "override", "priv",
   "typeof", "unsized", "virtual", "yield",
   "union", "dyn"].contains s

/-- `Context::ident_name`: snake-case, then append `_` on keyword collision. -/
def identName (s : String) : String :=
  let s := toSnakeCase s
  if isRustKeyword s then s ++ "_" else s

/-- `Context::type_name`: camel-case, then append `_` if the result is `Self`. -/
def typeName (name : String) : String :=
  let n := toCamelCase name
  if n = "Self" then n ++ "_" else n

/-- `Context::module_name`. -/
def moduleName (name : TypeName) : String :=
  identName name.name

/-- Rust `str::split('.')`: splits a character list on `'.'`, always returning
at least one (possibly empty) piece. -/
def splitOnDot : List Char → List (List Char)
  | [] => [[]]
  | c :: rest =>
    match splitOnDot rest with
    | [] => [[]]
    | w :: ws => if c = '.' then [] :: w :: ws else (c :: w) :: ws

/-- `Context::raw_module_path`. -/
def rawModulePath (package : String) : List String :=
  (splitOnDot package.toList).map (fun w => identName (String.mk w))

/-! ### The `Context` (context.rs lines 24-67) -/

structure Context where
  types : List (TypeName × TypeDefinition)
  exhaustive : Bool
  /-- the canonicalized `strip_prefix` components -/
  strip : List String
deriving DecidableEq, Repr

/-- `Context::new`: register every definition under its name, canonicalize the
configured strip prefix through `raw_module_path`. -/
def Context.new (defs : List TypeDefinition) (exhaustive : Bool)
    (strip? : Option String) : Context :=
  { types := defs.map (fun d => (d.typeName, d)),
    exhaustive := exhaustive,
    strip :=
      match strip? with
      | some s => rawModulePath s
      | none => [] }

/-- `self.types[name]`, with the `HashMap` index panic modelled as `none`. -/
def ctxGet (ctx : Context) (n : TypeName) : Option TypeDefinition :=
  ctx.types.lookup n

/-- The memoization state: one `Cell<Option<bool>>` per `TypeName`.
The head of the list is the most recent `set`. -/
abbrev Memo := List (TypeName × Bool)

def memoGet (memo : Memo) (n : TypeName) : Option Bool :=
  memo.lookup n

def memoPut (memo : Memo) (n : TypeName) (b : Bool) : Memo :=
  (n, b) :: memo

/-- `Context::module_path` (context.rs lines 881-889). -/
def modulePath (ctx : Context) (name : TypeName) : List String :=
  let raw := rawModulePath name.package
  if ctx.strip.isPrefixOf raw then raw.drop ctx.strip.length else raw

/-! ### Capability classification (context.rs lines 73-211)

`ref_has_double` and `ref_is_copy` read and write per-`TypeName`
memoization cells; the cell state is the threaded `Memo`. Fuel models the
Rust call stack: a `none` for every fuel is an infinite recursion. -/

mutual

/-- `Context::has_double` (context.rs lines 93-106). -/
def hasDouble (ctx : Context) : Nat → Memo → CType → Option (Bool × Memo)
  | 0, _, _ => none
  | fuel + 1, memo, t =>
    match t with
    | .primitive .double => some (true, memo)
    | .primitive _ => some (false, memo)
    | .optional it => hasDouble ctx fuel memo it
    | .list it => hasDouble ctx fuel memo it
    | .set it => hasDouble ctx fuel memo it
    | .map k v =>
      match hasDouble ctx fuel memo k with
      | none => none
      | some (true, m) => some (true, m)
      | some (false, m) => hasDouble ctx fuel m v
    | .reference n => refHasDouble ctx fuel memo n
    | .external _ fb => hasDouble ctx fuel memo fb

/-- `Context::ref_has_double` (context.rs lines 108-125): on a cache miss it
seeds the cell with `false` (`// break cycles`) before recursing, then stores
the computed value. -/
def refHasDouble (ctx : Context) : Nat → Memo → TypeName → Option (Bool × Memo)
  | 0, _, _ => none
  | fuel + 1, memo, n =>
    match memoGet memo n with
    | some b => some (b, memo)
    | none =>
      match ctxGet ctx n with
      | none => none
      | some d =>
        let memo := memoPut memo n false
        match d with
        | .alias ad =>
          match hasDouble ctx fuel memo ad.alias_ with
          | none => none
          | some (b, m) => some (b, memoPut m n b)
        | .enum _ => some (false, memoPut memo n false)
        | .object od =>
          match fieldsHasDouble ctx fuel memo od.fields with
          | none => none
          | some (b, m) => some (b, memoPut m n b)
        | .union ud =>
          match fieldsHasDouble ctx fuel memo ud.union_ with
          | none => none
          | some (b, m) => some (b, memoPut m n b)

/-- `fields().iter().any(|f| self.has_double(f.type_()))`: short-circuiting
`any`, threading the cell state. -/
def fieldsHasDouble (ctx : Context) :
    Nat → Memo → List FieldDefinition → Option (Bool × Memo)
  | _, memo, [] => some (false, memo)
  | 0, _, _ :: _ => none
  | fuel + 1, memo, f :: rest =>
    match hasDouble ctx fuel memo f.type_ with
    | none => none
    | some (true, m) => some (true, m)
    | some (false, m) => fieldsHasDouble ctx fuel m rest

end

mutual

/-- `Context::is_copy` (context.rs lines 127-147). -/
def isCopy (ctx : Context) : Nat → Memo → CType → Option (Bool × Memo)
  | 0, _, _ => none
  | fuel + 1, memo, t =>
    match t with
    | .primitive p =>
      match p with
      | .string | .binary | .any | .rid | .bearertoken => some (false, memo)
      | .datetime | .integer | .double | .safelong | .boolean | .uuid =>
        some (true, memo)
    | .optional it => isCopy ctx fuel memo it
    | .list _ | .set _ | .map _ _ => some (false, memo)
    | .reference n => refIsCopy ctx fuel memo n
    | .external _ fb => isCopy ctx fuel memo fb

/-- `Context::ref_is_copy` (context.rs lines 149-163). Unlike
`ref_has_double`, the source does NOT seed the cell before recursing into an
alias target; the cell is only written after the recursion returns. -/
def refIsCopy (ctx : Context) : Nat → Memo → TypeName → Option (Bool × Memo)
  | 0, _, _ => none
  | fuel + 1, memo, n =>
    match memoGet memo n with
    | some b => some (b, memo)
    | none =>
      match ctxGet ctx n with
      | none => none
      | some d =>
        match d with
        | .alias ad =>
          match isCopy ctx fuel memo ad.alias_ with
          | none => none
          | some (b, m) => some (b, memoPut m n b)
        | .enum _ => some (false, memoPut memo n false)
        | .object _ => some (false, memoPut memo n false)
        | .union _ => some (false, memoPut memo n false)

end

mutual

/-- `Context::is_default` (context.rs lines 183-202): the `has_default`
classification. -/
def isDefault (ctx : Context) : Nat → CType → Option Bool
  | 0, _ => none
  | fuel + 1, t =>
    match t with
    | .primitive p =>
      match p with
      | .string | .integer | .double | .safelong | .binary | .boolean =>
        some true
      | .datetime | .any | .uuid | .rid | .bearertoken => some false
    | .optional _ | .list _ | .set _ | .map _ _ => some true
    | .reference n => refIsDefault ctx fuel n
    | .external _ fb => isDefault ctx fuel fb

/-- `Context::ref_is_default` (context.rs lines 204-211). -/
def refIsDefault (ctx : Context) : Nat → TypeName → Option Bool
  | 0, _ => none
  | fuel + 1, n =>
    match ctxGet ctx n with
    | none => none
    | some (.alias ad) => isDefault ctx fuel ad.alias_
    | some (.enum _) => some false
    | some (.object _) => some false
    | some (.union _) => some false

end

/-- The `has_default` column of the specification's classification table
(spec §4.2), stated independently of the source: true for
String/Integer/Double/Safelong/Binary/Boolean, false for
Datetime/Any/Uuid/Rid/Bearertoken. -/
def primitiveHasDefaultSpec (p : PrimitiveType) : Bool :=
  [PrimitiveType.string, .integer, .double, .safelong, .binary,
   .boolean].contains p

mutual

/-- The `has_default` classification as the specification's table defines it
(spec §4.2 row `has_default`): primitives per `primitiveHasDefaultSpec`,
containers true ("all containers have an empty form"), Alias recurses,
Enum/Object/Union false, External recurses into its fallback. -/
def hasDefaultSpec (ctx : Context) : Nat → CType → Option Bool
  | 0, _ => none
  | fuel + 1, t =>
    match t with
    | .primitive p => some (primitiveHasDefaultSpec p)
    | .optional _ | .list _ | .set _ | .map _ _ => some true
    | .reference n => refHasDefaultSpec ctx fuel n
    | .external _ fb => hasDefaultSpec ctx fuel fb

/-- The Reference rule of the `has_default` table row. -/
def refHasDefaultSpec (ctx : Context) : Nat → TypeName → Option Bool
  | 0, _ => none
  | fuel + 1, n =>
    match ctxGet ctx n with
    | none => none
    | some (.alias ad) => hasDefaultSpec ctx fuel ad.alias_
    | some (.enum _) => some false
    | some (.object _) => some false
    | some (.union _) => some false

end

mutual

/-- `Context::needs_box` (context.rs lines 73-81): the `needs_indirection`
classification. -/
def needsBox (ctx : Context) : Nat → CType → Option Bool
  | 0, _ => none
  | fuel + 1, t =>
    match t with
    | .primitive _ => some false
    | .optional it => needsBox ctx fuel it
    | .list _ | .set _ | .map _ _ => some false
    | .reference n => refNeedsBox ctx fuel n
    | .external _ fb => needsBox ctx fuel fb

/-- `Context::ref_needs_box` (context.rs lines 83-91). -/
def refNeedsBox (ctx : Context) : Nat → TypeName → Option Bool
  | 0, _ => none
  | fuel + 1, n =>
    match ctxGet ctx n with
    | none => none
    | some (.alias ad) => needsBox ctx fuel ad.alias_
    | some (.enum _) => some false
    | some (.object _) => some true
    | some (.union _) => some true

end

/-! ### Token streams (`proc_macro2::TokenStream` built by `quote!`)

A token stream is flattened: a parenthesized group `(ts)` is rendered as
`gopen :: ts ++ [gclose]`. -/

inductive Tok where
  | ident (s : String)
  | punct (s : String)
  | lit (s : String)
  | gopen
  | gclose
deriving DecidableEq, Repr

/-- Splits a character list on `::` separators (the shape of every path
literal passed to `TokenStream::parse` in context.rs). -/
def splitDoubleColon : List Char → List (List Char)
  | [] => [[]]
  | ':' :: ':' :: rest => [] :: splitDoubleColon rest
  | c :: rest =>
    match splitDoubleColon rest with
    | [] => [[c]]
    | w :: ws => (c :: w) :: ws

/-- `TokenStream::parse` of a plain path string such as `std::boxed::Box`. -/
def parsePath (s : String) : List Tok :=
  List.intercalate [Tok.punct "::"]
    ((splitDoubleColon s.toList).map (fun w => [Tok.ident (String.mk w)]))

/-- `Context::prelude_ident` (context.rs lines 824-832). -/
def preludeIdent (name : TypeName) (short long : String) : List Tok :=
  if typeName name.name = short then parsePath long else parsePath short

/-- `Context::box_ident`. -/
def boxIdent (name : TypeName) : List Tok :=
  preludeIdent name "Box" "std::boxed::Box"

/-- `Context::option_ident`. -/
def optionIdent (name : TypeName) : List Tok :=
  preludeIdent name "Option" "std::option::Option"

/-- `Context::string_ident`. -/
def stringIdent (name : TypeName) : List Tok :=
  preludeIdent name "String" "std::string::String"

/-- `Context::vec_ident`. -/
def vecIdent (name : TypeName) : List Tok :=
  preludeIdent name "Vec" "std::vec::Vec"

/-- `Context::into_ident`. -/
def intoIdent (name : TypeName) : List Tok :=
  preludeIdent name "Into" "std::convert::Into"

/-- `Context::into_iterator_ident`. -/
def intoIteratorIdent (name : TypeName) : List Tok :=
  preludeIdent name "IntoIterator" "std::iter::IntoIterator"

/-- The length of the longest shared leading run of two module paths:
`this_module_path.iter().zip(&other_module_path).take_while(|(a, b)| a == b).count()`. -/
def sharedLen : List String → List String → Nat
  | a :: as_, b :: bs => if a = b then sharedLen as_ bs + 1 else 0
  | _, _ => 0

/-- `Context::type_path` (context.rs lines 895-923): one `super` to exit the
current type's own module, one more per non-shared component of the current
module path, then the non-shared components of the target's module path, and
finally the target's type name; every component is followed by `::`. -/
def typePath (ctx : Context) (thisType otherType : TypeName) : List Tok :=
  let thisModulePath := modulePath ctx thisType
  let otherModulePath := modulePath ctx otherType
  let shared := sharedLen thisModulePath otherModulePath
  let components : List (List Tok) :=
    [Tok.ident "super"] ::
      (List.replicate (thisModulePath.length - shared) [Tok.ident "super"] ++
        (otherModulePath.drop shared).map (fun component => [Tok.ident component]))
  (components.map (fun component => component ++ [Tok.punct "::"])).flatten ++
    [Tok.ident (typeName otherType.name)]

/-- `Context::rust_type` (context.rs lines 240-277). -/
def rustType (ctx : Context) (thisType : TypeName) : CType → List Tok
  | .primitive p =>
    match p with
    | .string => stringIdent thisType
    | .datetime =>
      [Tok.ident "conjure_object", Tok.punct "::", Tok.ident "DateTime",
       Tok.punct "<", Tok.ident "conjure_object", Tok.punct "::",
       Tok.ident "Utc", Tok.punct ">"]
    | .integer => [Tok.ident "i32"]
    | .double => [Tok.ident "f64"]
    | .safelong => parsePath "conjure_object::SafeLong"
    | .binary => parsePath "conjure_object::ByteBuf"
    | .any => parsePath "conjure_object::Value"
    | .boolean => [Tok.ident "bool"]
    | .uuid => parsePath "conjure_object::Uuid"
    | .rid => parsePath "conjure_object::ResourceIdentifier"
    | .bearertoken => parsePath "conjure_object::BearerToken"
  | .optional it =>
    optionIdent thisType ++ [Tok.punct "<"] ++ rustType ctx thisType it ++
      [Tok.punct ">"]
  | .list it =>
    vecIdent thisType ++ [Tok.punct "<"] ++ rustType ctx thisType it ++
      [Tok.punct ">"]
  | .set it =>
    parsePath "std::collections::BTreeSet" ++ [Tok.punct "<"] ++
      rustType ctx thisType it ++ [Tok.punct ">"]
  | .map k v =>
    parsePath "std::collections::BTreeMap" ++ [Tok.punct "<"] ++
      rustType ctx thisType k ++ [Tok.punct ","] ++ rustType ctx thisType v ++
      [Tok.punct ">"]
  | .reference n => typePath ctx thisType n
  | .external _ fb => rustType ctx thisType fb

/-- `Context::ref_boxed_rust_type` (context.rs lines 292-312). Note the
`Object` arm: whether the referenced object is boxed depends on the kind of
the *referencing* definition — a `Union` referencing an `Object` is NOT
boxed, while a referenced `Union` always is. -/
def refBoxedRustType (ctx : Context) (fuel : Nat) (thisType n : TypeName) :
    Option (List Tok) :=
  match ctxGet ctx n with
  | none => none
  | some d =>
    let needsB : Option Bool :=
      match d with
      | .alias ad => needsBox ctx fuel ad.alias_
      | .enum _ => some false
      | .object _ =>
        match ctxGet ctx thisType with
        | none => none
        | some (.union _) => some false
        | some _ => some true
      | .union _ => some true
    match needsB with
    | none => none
    | some nb =>
      let unboxed := typePath ctx thisType n
      some (if nb then
              boxIdent n ++ [Tok.punct "<"] ++ unboxed ++ [Tok.punct ">"]
            else unboxed)

/-- `Context::boxed_rust_type` (context.rs lines 279-290). -/
def boxedRustType (ctx : Context) (fuel : Nat) (thisType : TypeName) :
    CType → Option (List Tok)
  | .optional it =>
    (boxedRustType ctx fuel thisType it).map
      (fun item =>
        optionIdent thisType ++ [Tok.punct "<"] ++ item ++ [Tok.punct ">"])
  | .reference n => refBoxedRustType ctx fuel thisType n
  | .external _ fb => boxedRustType ctx fuel thisType fb
  | t => some (rustType ctx thisType t)

/-- The per-field storage types of a generated object struct
(objects/object.rs lines 63-67): `boxed_rust_type` of every field. -/
def objectFieldStorageTypes (ctx : Context) (fuel : Nat)
    (od : ObjectDefinition) : Option (List (List Tok)) :=
  od.fields.mapM (fun f => boxedRustType ctx fuel od.typeName f.type_)

/-! ### Setter bounds (context.rs lines 421-613, 936-973) -/

inductive CollectionSetterBounds where
  | simple (argument_type assign_rhs : List Tok)
  | generic (argument_bound assign_rhs : List Tok)
deriving DecidableEq, Repr

inductive CollectionType where
  | list (value : CollectionSetterBounds)
  | set (value : CollectionSetterBounds)
  | map (key value : CollectionSetterBounds)
deriving DecidableEq, Repr

inductive SetterBounds where
  | simple (argument_type assign_rhs : List Tok)
  | generic (argument_bound assign_rhs : List Tok)
  | collection (argument_bound : List Tok) (type_ : CollectionType)
deriving DecidableEq, Repr

/-- `quote!(#value_ident.into())`. -/
def rhsInto (vi : List Tok) : List Tok :=
  vi ++ [Tok.punct ".", Tok.ident "into", Tok.gopen, Tok.gclose]

/-- `quote!(#value_ident.into().into())`. -/
def rhsIntoInto (vi : List Tok) : List Tok :=
  rhsInto vi ++ [Tok.punct ".", Tok.ident "into", Tok.gopen, Tok.gclose]

/-- `quote!(conjure_object::serde_value::to_value(#value_ident).expect("value failed to serialize"))`. -/
def rhsToValue (vi : List Tok) : List Tok :=
  parsePath "conjure_object::serde_value::to_value" ++
    [Tok.gopen] ++ vi ++
    [Tok.gclose, Tok.punct ".", Tok.ident "expect", Tok.gopen,
     Tok.lit "value failed to serialize", Tok.gclose]

/-- `quote!(#value_ident.into_iter().collect())`. -/
def rhsCollect (vi : List Tok) : List Tok :=
  vi ++ [Tok.punct ".", Tok.ident "into_iter", Tok.gopen, Tok.gclose,
         Tok.punct ".", Tok.ident "collect", Tok.gopen, Tok.gclose]

/-- `Context::collection_setter_bounds` (context.rs lines 533-613). Note two
oddities of the source, both reproduced here: the `Map` arm renders its
argument bound as `#into_iterator<Item = (#key_type, #value_type>)` (the `>`
sits inside the parenthesized group), and the `Reference` arm renders
`super::#type_` instead of going through `type_path`. -/
def collectionSetterBounds (ctx : Context) (thisType : TypeName) :
    CType → List Tok → CollectionSetterBounds
  | .primitive p, vi =>
    match p with
    | .string =>
      .generic (intoIdent thisType ++ [Tok.punct "<"] ++ stringIdent thisType ++
        [Tok.punct ">"]) (rhsInto vi)
    | .binary =>
      .generic (intoIdent thisType ++ [Tok.punct "<"] ++ vecIdent thisType ++
        [Tok.punct "<", Tok.ident "u8", Tok.punct ">", Tok.punct ">"])
        (rhsIntoInto vi)
    | .any =>
      .generic (parsePath "conjure_object::serde::Serialize") (rhsToValue vi)
    | _ => .simple (rustType ctx thisType (.primitive p)) vi
  | .optional it, vi =>
    .generic (intoIdent thisType ++ [Tok.punct "<"] ++ optionIdent thisType ++
      [Tok.punct "<"] ++ rustType ctx thisType it ++
      [Tok.punct ">", Tok.punct ">"]) (rhsInto vi)
  | .list it, vi =>
    .generic (intoIteratorIdent thisType ++
      [Tok.punct "<", Tok.ident "Item", Tok.punct "="] ++
      rustType ctx thisType it ++ [Tok.punct ">"]) (rhsCollect vi)
  | .set it, vi =>
    .generic (intoIteratorIdent thisType ++
      [Tok.punct "<", Tok.ident "Item", Tok.punct "="] ++
      rustType ctx thisType it ++ [Tok.punct ">"]) (rhsCollect vi)
  | .map k v, vi =>
    -- `quote!(#into_iterator<Item = (#key_type, #value_type>))`
    .generic (intoIteratorIdent thisType ++
      [Tok.punct "<", Tok.ident "Item", Tok.punct "=", Tok.gopen] ++
      rustType ctx thisType k ++ [Tok.punct ","] ++ rustType ctx thisType v ++
      [Tok.punct ">", Tok.gclose]) (rhsCollect vi)
  | .reference n, vi =>
    -- `quote!(super::#type_)` where `type_ = self.type_name(def.name())`
    .simple [Tok.ident "super", Tok.punct "::", Tok.ident (typeName n.name)] vi
  | .external _ fb, vi => collectionSetterBounds ctx thisType fb vi

/-- `Context::setter_bounds` (context.rs lines 421-531). -/
def setterBounds (ctx : Context) (fuel : Nat) (thisType : TypeName) :
    CType → List Tok → Option SetterBounds
  | .primitive p, vi =>
    match p with
    | .string =>
      some (.generic (intoIdent thisType ++ [Tok.punct "<"] ++
        stringIdent thisType ++ [Tok.punct ">"]) (rhsInto vi))
    | .binary =>
      some (.generic (intoIdent thisType ++ [Tok.punct "<"] ++
        vecIdent thisType ++
        [Tok.punct "<", Tok.ident "u8", Tok.punct ">", Tok.punct ">"])
        (rhsIntoInto vi))
    | .any =>
      some (.generic (parsePath "conjure_object::serde::Serialize")
        (rhsToValue vi))
    | _ => some (.simple (rustType ctx thisType (.primitive p)) vi)
  | .optional it, vi =>
    match needsBox ctx fuel it with
    | none => none
    | some nb =>
      let assignRhs :=
        if nb then
          vi ++ [Tok.punct ".", Tok.ident "into", Tok.gopen, Tok.gclose,
                 Tok.punct ".", Tok.ident "map", Tok.gopen] ++
            boxIdent thisType ++ [Tok.punct "::", Tok.ident "new", Tok.gclose]
        else rhsInto vi
      some (.generic (intoIdent thisType ++ [Tok.punct "<"] ++
        optionIdent thisType ++ [Tok.punct "<"] ++ rustType ctx thisType it ++
        [Tok.punct ">", Tok.punct ">"]) assignRhs)
  | .list it, _vi =>
    some (.collection (intoIteratorIdent thisType ++
      [Tok.punct "<", Tok.ident "Item", Tok.punct "="] ++
      rustType ctx thisType it ++ [Tok.punct ">"])
      (.list (collectionSetterBounds ctx thisType it [Tok.ident "value"])))
  | .set it, _vi =>
    some (.collection (intoIteratorIdent thisType ++
      [Tok.punct "<", Tok.ident "Item", Tok.punct "="] ++
      rustType ctx thisType it ++ [Tok.punct ">"])
      (.set (collectionSetterBounds ctx thisType it [Tok.ident "value"])))
  | .map k v, _vi =>
    -- `quote!(#into_iterator<Item = (#key_type, #value_type)>)`
    some (.collection (intoIteratorIdent thisType ++
      [Tok.punct "<", Tok.ident "Item", Tok.punct "=", Tok.gopen] ++
      rustType ctx thisType k ++ [Tok.punct ","] ++ rustType ctx thisType v ++
      [Tok.gclose, Tok.punct ">"])
      (.map (collectionSetterBounds ctx thisType k [Tok.ident "key"])
            (collectionSetterBounds ctx thisType v [Tok.ident "value"])))
  | .reference n, vi =>
    match refNeedsBox ctx fuel n with
    | none => none
    | some nb =>
      let assignRhs :=
        if nb then
          boxIdent thisType ++ [Tok.punct "::", Tok.ident "new", Tok.gopen] ++
            vi ++ [Tok.gclose]
        else vi
      some (.simple (typePath ctx thisType n) assignRhs)
  | .external _ fb, vi => setterBounds ctx fuel thisType fb vi

/-! ### Path resolution and bracket well-formedness -/

/-- Resolution of an emitted path, relative to an absolute module (innermost
component last): each leading `super::` pops one module component, each plain
component descends, and the final identifier names the item. Returns the
module the item is looked up in together with the item name, or `none` when
the path walks above the root or is not a path shape. -/
def resolveRel : List String → List Tok → Option (List String × String)
  | cur, [Tok.ident x] => some (cur, x)
  | cur, Tok.ident "super" :: Tok.punct "::" :: rest =>
    match cur with
    | [] => none
    | _ :: _ => resolveRel cur.dropLast rest
  | cur, Tok.ident m :: Tok.punct "::" :: rest => resolveRel (cur ++ [m]) rest
  | _, _ => none

/-- Checks that `<`/`>` puncts nest properly and do not cross group
delimiters: the shape a Rust type parser requires of a generic bound. -/
def angleOk : List Tok → List Nat → Nat → Bool
  | [], stack, depth => stack.isEmpty && depth == 0
  | Tok.gopen :: rest, stack, depth => angleOk rest (depth :: stack) 0
  | Tok.gclose :: rest, stack, depth =>
    match stack with
    | [] => false
    | d :: s => depth == 0 && angleOk rest s d
  | Tok.punct "<" :: rest, stack, depth => angleOk rest stack (depth + 1)
  | Tok.punct ">" :: rest, stack, depth =>
    match depth with
    | 0 => false
    | d + 1 => angleOk rest stack d
  | _ :: rest, stack, depth => angleOk rest stack depth

/-- Angle brackets and groups of a token stream are well nested. -/
def wellBracketed (ts : List Tok) : Bool :=
  angleOk ts [] 0

/-! ### Object emission surface (objects/object.rs) -/

/-- Modelled from the spec: `objects::fields` (objects/mod.rs is not under
src/) returns the canonicalized field identifiers
`ctx.field_name(f.field_name())` (spec §4.1 `field_ident`); `generate` then
uses them directly as the struct's field names. -/
def objectFieldIdents (od : ObjectDefinition) : List String :=
  od.fields.map (fun f => identName f.fieldName)

/-- `def.fields().iter().any(|f| **f.field_name() == "new")`
(objects/object.rs line 195): the check is on the literal field name. -/
def hasFieldLiterallyNew (od : ObjectDefinition) : Bool :=
  od.fields.any (fun f => f.fieldName == "new")

/-- `generate_constructor`'s emitted symbol
(objects/object.rs lines 195-199): `new_` iff some field is literally named
`new`, else `new`. -/
def constructorName (od : ObjectDefinition) : String :=
  if hasFieldLiterallyNew od then "new_" else "new"

/-- The builder entry point's symbol (objects/object.rs lines 92-96):
`builder_` iff some canonicalized field ident equals `builder`. -/
def builderMethodName (od : ObjectDefinition) : String :=
  if (objectFieldIdents od).any (fun f => f == "builder") then "builder_"
  else "builder"

/-- Whether the direct constructor is emitted
(objects/object.rs lines 69-73): only when `fields.len() < 4`. -/
def constructorEmitted (od : ObjectDefinition) : Bool :=
  decide ((objectFieldIdents od).length < 4)

/-! ### Serde round-trip models (conjure-error/src/types/conflict.rs,
conjure-codegen/src/example_types/product/double_alias_example.rs,
conjure-object/src/double_key.rs)

`F64` is an IEEE-754 binary64 bit pattern. The wire is the serde data
model: a tree of primitive values and field maps. -/

/-- An IEEE-754 binary64 bit pattern. -/
abbrev F64 := Nat

/-- `f64::is_nan`: exponent all ones with nonzero mantissa. -/
def f64IsNan (b : F64) : Bool :=
  decide ((b / 2 ^ 52) % 2 ^ 11 = 2 ^ 11 - 1) && decide (b % 2 ^ 52 ≠ 0)

/-- Positive or negative zero. -/
def f64IsZero (b : F64) : Bool :=
  decide (b % 2 ^ 63 = 0)

/-- IEEE-754 `==` on bit patterns: false on any NaN, true on `±0.0 == ∓0.0`,
bit equality otherwise. -/
def f64IeeeEq (a b : F64) : Bool :=
  if f64IsNan a || f64IsNan b then false
  else if f64IsZero a && f64IsZero b then true
  else a == b

/-- The NaN-total equality of `ordered_float::OrderedFloat` as used by
`DoubleKey` (double_key.rs lines 64-69) and by the `DoubleOps` shim the
generated `educe` attributes delegate to: IEEE equality, except that two
NaNs compare equal. -/
def doubleOpsEq (a b : F64) : Bool :=
  f64IeeeEq a b || (f64IsNan a && f64IsNan b)

/-- A value of the serde data model. -/
inductive JValue where
  | vnull
  | vbool (b : Bool)
  | vdouble (bits : F64)
  | vstring (s : String)
  | varray (items : List JValue)
  | vmap (entries : List (String × JValue))

/-- `DoubleAliasExample(pub f64)` (double_alias_example.rs line 4). -/
structure DoubleAliasExample where
  f0 : F64
deriving DecidableEq, Repr

/-- `ser::Serialize for DoubleAliasExample`: `self.0.serialize(s)`. -/
def serializeDoubleAliasExample (v : DoubleAliasExample) : JValue :=
  .vdouble v.f0

/-- `f64`'s deserialization from the serde data model (a double payload). -/
def deserializeF64 : JValue → Option F64
  | .vdouble b => some b
  | _ => none

/-- `de::Deserialize for DoubleAliasExample`:
`de::Deserialize::deserialize(d).map(DoubleAliasExample)`. -/
def deserializeDoubleAliasExample (j : JValue) : Option DoubleAliasExample :=
  (deserializeF64 j).map DoubleAliasExample.mk

/-- The equality the generated
`educe(PartialEq(trait = "conjure_object::private::DoubleOps"))` attribute
derives for `DoubleAliasExample`: the NaN-total rule on the single field. -/
def doubleAliasExampleEq (a b : DoubleAliasExample) : Bool :=
  doubleOpsEq a.f0 b.f0

/-- `Conflict {}` (conflict.rs line 5). -/
structure Conflict where
deriving DecidableEq, Repr

/-- `ser::Serialize for Conflict` (conflict.rs lines 37-46): an empty map. -/
def serializeConflict (_ : Conflict) : JValue :=
  .vmap []

/-- `Visitor_::visit_map` (conflict.rs lines 61-73): every key deserializes
to `Field_::Unknown_` (conflict.rs lines 92-100 map every string there), its
value is consumed as `de::IgnoredAny`, and the loop returns `Conflict {}`. -/
def conflictVisitMap : List (String × JValue) → Option Conflict
  | [] => some {}
  | (_, _) :: rest => conflictVisitMap rest

/-- `de::Deserialize for Conflict` (conflict.rs lines 47-54): deserialize a
struct through `Visitor_`, i.e. a field map on the wire. -/
def deserializeConflict : JValue → Option Conflict
  | .vmap entries => conflictVisitMap entries
  | _ => none

/-! ### Query-string construction for the `queryParams` scenario

Modelled from the spec: the client-side request builder lives in
`conjure-http`'s client module and the `conjure_client` macro expansion,
neither of which is under src/. Spec §4.7 step 2 and §6: query values are
percent-encoded with the unreserved set `ALPHA / DIGIT / "-" / "." / "_" /
"~"` (space → `%20`), and a sequence argument contributes one `name=value`
pair per element. The expected strings appear as fixtures in
conjure-test/src/test/clients.rs lines 297-307 and 367-387. -/

def unreservedChar (c : Char) : Bool :=
  c.isAlpha || c.isDigit || c == '-' || c == '.' || c == '_' || c == '~'

def hexDigit (n : Nat) : Char :=
  if n < 10 then Char.ofNat ('0'.toNat + n) else Char.ofNat ('A'.toNat + n - 10)

/-- Percent-encode one ASCII character. -/
def pctEncodeChar (c : Char) : List Char :=
  if unreservedChar c then [c]
  else ['%', hexDigit (c.toNat / 16), hexDigit (c.toNat % 16)]

/-- Percent-encode a string of ASCII characters byte by byte. -/
def pctEncode (s : String) : String :=
  String.mk ((s.toList.map pctEncodeChar).flatten)

/-- Join `name=value` pairs with `&`. -/
def queryString (pairs : List (String × String)) : String :=
  String.intercalate "&" (pairs.map (fun p => p.1 ++ "=" ++ p.2))

/-- Modelled from the spec: the URI the generated client builds for the
`GET /test/queryParams` endpoint with a string query parameter `normal` and
an integer-sequence query parameter `list`. -/
def queryParamUri (normal : String) (list : List Int) : String :=
  let pairs := ("normal", pctEncode normal) ::
    list.map (fun i => ("list", pctEncode (toString i)))
  if pairs.isEmpty then "/test/queryParams"
  else "/test/queryParams" ++ "?" ++ queryString pairs

inductive HttpMethod where
  | get
  | post
  | put
  | delete
deriving DecidableEq, Repr

/-- The method declared for the queryParams endpoint
(clients.rs lines 220-225: `#[endpoint(method = GET, ...)]`). -/
def queryParamsEndpointMethod : HttpMethod :=
  .get

inductive AcceptKind where
  | empty
  | json
  | binary
deriving DecidableEq, Repr

/-- Modelled from the spec (§4.7 step 3): the `Accept` header contributed by
the endpoint's accept kind. -/
def acceptHeader : AcceptKind → List (String × String)
  | .empty => []
  | .json => [("Accept", "application/json")]
  | .binary => [("Accept", "application/octet-stream")]

/-! ### Concrete IR fixtures used by the claims -/

/-- `alias A = optional<A>`: a self-referential alias cycling through a
container, permitted by the IR invariants (spec §3). -/
def cycleAliasName : TypeName :=
  ⟨"com.example", "A"⟩

def cycleCtx : Context :=
  Context.new [.alias ⟨cycleAliasName, .optional (.reference cycleAliasName)⟩]
    false none

/-- `object Pair { left: Expr, right: Expr }`. -/
def pairName : TypeName :=
  ⟨"com.example", "Pair"⟩

/-- `union Expr { lit: integer, pair: Pair }` (spec §8 scenario 3). -/
def exprName : TypeName :=
  ⟨"com.example", "Expr"⟩

/-- `union Expr2 { inner: Expr }`: a union referencing a union. -/
def expr2Name : TypeName :=
  ⟨"com.example", "Expr2"⟩

def unionCtx : Context :=
  Context.new
    [.object ⟨pairName, [⟨"left", .reference exprName⟩,
                         ⟨"right", .reference exprName⟩]⟩,
     .union ⟨exprName, [⟨"lit", .primitive .integer⟩,
                        ⟨"pair", .reference pairName⟩]⟩,
     .union ⟨expr2Name, [⟨"inner", .reference exprName⟩]⟩]
    false none

/-- `object Foo` in package `a.b` with a field `bars: list<Bar>`. -/
def fooName : TypeName :=
  ⟨"a.b", "Foo"⟩

/-- `object Bar` in package `c.d`, a different, non-sibling package. -/
def barName : TypeName :=
  ⟨"c.d", "Bar"⟩

def crossPackageCtx : Context :=
  Context.new
    [.object ⟨fooName, [⟨"bars", .list (.reference barName)⟩]⟩,
     .object ⟨barName, []⟩]
    false none

/-- A context whose strip prefix equals `n`'s entire package. -/
def stripAllCtx : Context :=
  Context.new [] false (some "com.example")

def stripAllName : TypeName :=
  ⟨"com.example", "Foo"⟩

/-- A context with a proper strip prefix. -/
def stripSomeCtx : Context :=
  Context.new [] false (some "com")

/-- `object Node { next: optional<Node> }`: an object whose only field is an
optional reference to itself (spec §8 boundary case). -/
def nodeName : TypeName :=
  ⟨"com.example", "Node"⟩

def nodeObjDef : ObjectDefinition :=
  ⟨nodeName, [⟨"next", .optional (.reference nodeName)⟩]⟩

def nodeCtx : Context :=
  Context.new [.object nodeObjDef] false none

/-- An object with a field literally named `Builder`, whose canonical
(snake-case) ident is `builder`. -/
def builderFieldObj : ObjectDefinition :=
  ⟨⟨"com.example", "Thing"⟩, [⟨"Builder", .primitive .string⟩]⟩

/-! ### Helper lemmas -/

/-- On `alias A = optional<A>` the unseeded `ref_is_copy` recursion never
produces a result: each unfolding consumes fuel and returns to the same
query with the memo still empty. -/
theorem isCopy_cycle_none (n : Nat) :
    isCopy cycleCtx n [] (.reference cycleAliasName) = none ∧
    refIsCopy cycleCtx n [] cycleAliasName = none ∧
    isCopy cycleCtx n [] (.optional (.reference cycleAliasName)) = none := by
  induction n with
  | zero => exact ⟨rfl, rfl, rfl⟩
  | succ n ih =>
    refine ⟨?_, ?_, ?_⟩
    · show refIsCopy cycleCtx n [] cycleAliasName = none
      exact ih.2.1
    · show (match isCopy cycleCtx n [] (.optional (.reference cycleAliasName)) with
        | none => none
        | some (b, m) => some (b, memoPut m cycleAliasName b)) = none
      rw [ih.2.2]
    · show isCopy cycleCtx n [] (.reference cycleAliasName) = none
      exact ih.1

/-- The NaN-total equality is reflexive (this is exactly what the shim buys:
IEEE `==` is not). -/
theorem doubleOpsEq_refl (b : F64) : doubleOpsEq b b = true := by
  unfold doubleOpsEq f64IeeeEq
  cases hn : f64IsNan b
  · cases hz : f64IsZero b <;> simp [hn, hz]
  · simp [hn]

/-- `Conflict`'s map visitor accepts any entry list: every key maps to
`Field_::Unknown_` and its value is consumed and dropped. -/
theorem conflictVisitMap_any (entries : List (String × JValue)) :
    conflictVisitMap entries = some {} := by
  induction entries with
  | nil => rfl
  | cons e rest ih => exact ih

theorem splitOnDot_ne_nil (cs : List Char) : splitOnDot cs ≠ [] := by
  cases cs with
  | nil => simp [splitOnDot]
  | cons c rest =>
    unfold splitOnDot
    cases h : splitOnDot rest with
    | nil => simp
    | cons w ws =>
      cases hc : decide (c = '.') <;> simp_all

theorem rawModulePath_ne_nil (pkg : String) : rawModulePath pkg ≠ [] := by
  unfold rawModulePath
  simp [splitOnDot_ne_nil]

/-! ### Claim theorems -/

/-- C1: the claim states that `is_copy`, like `contains_double`, memoizes per
TypeName with a three-state cell and that a re-entrant query of an
in-progress TypeName returns `false` instead of recursing forever, making the
classification total even on `alias A = optional<A>`. The code contradicts
this: `ref_is_copy` never seeds the in-progress cell, so on that input the
recursion returns to the identical query with an unchanged memo and no amount
of fuel produces a result, while `ref_has_double` (which does seed the cell)
terminates with `false` on the same input. -/
theorem isCopy_cycle_alias_diverges :
    (∀ fuel, isCopy cycleCtx fuel [] (.reference cycleAliasName) = none) ∧
    (hasDouble cycleCtx 6 [] (.reference cycleAliasName)).map Prod.fst =
      some false := by
  exact ⟨fun fuel => (isCopy_cycle_none fuel).1, rfl⟩

/-- C2: the claim states that a union variant whose payload references an
Object definition stores the payload boxed, exactly as for a Union-to-Union
reference. The code contradicts it: with the referencing type `Expr` being a
Union and `Pair` an Object, `ref_boxed_rust_type` yields the bare path
`super::Pair` (first conjunct), while a referenced Union is boxed from both a
Union (second conjunct) and an Object (third conjunct). -/
theorem unionToObject_reference_not_boxed :
    boxedRustType unionCtx 5 exprName (.reference pairName) =
      some [Tok.ident "super", Tok.punct "::", Tok.ident "Pair"] ∧
    boxedRustType unionCtx 5 expr2Name (.reference exprName) =
      some [Tok.ident "Box", Tok.punct "<", Tok.ident "super", Tok.punct "::",
            Tok.ident "Expr", Tok.punct ">"] ∧
    boxedRustType unionCtx 5 pairName (.reference exprName) =
      some [Tok.ident "Box", Tok.punct "<", Tok.ident "super", Tok.punct "::",
            Tok.ident "Expr", Tok.punct ">"] ∧
    ([Tok.ident "super", Tok.punct "::", Tok.ident "Pair"] : List Tok) ≠
      boxIdent pairName ++ [Tok.punct "<"] ++
        [Tok.ident "super", Tok.punct "::", Tok.ident "Pair"] ++
        [Tok.punct ">"] := by
  exact ⟨rfl, rfl, rfl, by decide⟩

/-- C3: the claim states that every rendered reference, including the
element-type position of a collection setter bound, resolves from the
defining module to the target's module — even across packages. The code
contradicts it: `collection_setter_bounds` renders a Reference as
`super::Bar`, which from `Foo`'s defining module `a::b::foo` resolves to
module `a::b`, not `Bar`'s module `c::d` (conjuncts 1-4); the `type_path`
rendering used elsewhere does resolve correctly (conjunct 5). -/
theorem collection_reference_super_path_wrong_module :
    collectionSetterBounds crossPackageCtx fooName (.reference barName)
        [Tok.ident "value"] =
      .simple [Tok.ident "super", Tok.punct "::", Tok.ident "Bar"]
        [Tok.ident "value"] ∧
    resolveRel (modulePath crossPackageCtx fooName ++ [moduleName fooName])
        [Tok.ident "super", Tok.punct "::", Tok.ident "Bar"] =
      some (["a", "b"], "Bar") ∧
    modulePath crossPackageCtx barName = ["c", "d"] ∧
    (["a", "b"] : List String) ≠ ["c", "d"] ∧
    resolveRel (modulePath crossPackageCtx fooName ++ [moduleName fooName])
        (typePath crossPackageCtx fooName barName) =
      some (["c", "d"], "Bar") := by
  exact ⟨rfl, rfl, rfl, by decide, rfl⟩

/-- C4: the claim states that a map rendered as a collection element gets the
well-formed bound `IntoIterator<Item = (Key, Value)>`, identical in shape to
the top-level `setter_bounds` rendering. The code contradicts it: the
collection rendering puts the closing `>` inside the parenthesized group
(`IntoIterator<Item = (i32, f64>)`), which differs from the top-level bound
and leaves the `<` unclosed. -/
theorem collection_map_bound_malformed :
    setterBounds (Context.new [] false none) 5 ⟨"com.example", "Foo"⟩
        (.map (.primitive .integer) (.primitive .double)) [Tok.ident "v"] =
      some (.collection
        [Tok.ident "IntoIterator", Tok.punct "<", Tok.ident "Item",
         Tok.punct "=", Tok.gopen, Tok.ident "i32", Tok.punct ",",
         Tok.ident "f64", Tok.gclose, Tok.punct ">"]
        (.map (.simple [Tok.ident "i32"] [Tok.ident "key"])
              (.simple [Tok.ident "f64"] [Tok.ident "value"]))) ∧
    collectionSetterBounds (Context.new [] false none) ⟨"com.example", "Foo"⟩
        (.map (.primitive .integer) (.primitive .double)) [Tok.ident "value"] =
      .generic
        [Tok.ident "IntoIterator", Tok.punct "<", Tok.ident "Item",
         Tok.punct "=", Tok.gopen, Tok.ident "i32", Tok.punct ",",
         Tok.ident "f64", Tok.punct ">", Tok.gclose]
        (rhsCollect [Tok.ident "value"]) ∧
    ([Tok.ident "IntoIterator", Tok.punct "<", Tok.ident "Item", Tok.punct "=",
      Tok.gopen, Tok.ident "i32", Tok.punct ",", Tok.ident "f64", Tok.gclose,
      Tok.punct ">"] : List Tok) ≠
      [Tok.ident "IntoIterator", Tok.punct "<", Tok.ident "Item", Tok.punct "=",
       Tok.gopen, Tok.ident "i32", Tok.punct ",", Tok.ident "f64",
       Tok.punct ">", Tok.gclose] ∧
    wellBracketed
      [Tok.ident "IntoIterator", Tok.punct "<", Tok.ident "Item", Tok.punct "=",
       Tok.gopen, Tok.ident "i32", Tok.punct ",", Tok.ident "f64", Tok.gclose,
       Tok.punct ">"] = true ∧
    wellBracketed
      [Tok.ident "IntoIterator", Tok.punct "<", Tok.ident "Item", Tok.punct "=",
       Tok.gopen, Tok.ident "i32", Tok.punct ",", Tok.ident "f64",
       Tok.punct ">", Tok.gclose] = false := by
  exact ⟨rfl, rfl, by decide, rfl, rfl⟩

/-- C5 counterexample: with a strip prefix equal to the TypeName's entire
package (`com.example` both), `raw.starts_with(&self.strip_prefix)` holds and
everything is dropped, so `module_path` is empty — refuting the claim that it
is nonempty for every configured strip prefix. -/
theorem modulePath_empty_when_strip_equals_package :
    modulePath stripAllCtx stripAllName = [] := by
  rfl

/-- C5 amended: `module_path(n)` consists only of canonicalized identifiers
(images of `ident_name`); the strip prefix is dropped if and only if the raw
canonical path starts with it; and the result is nonempty unless the
canonicalized strip prefix equals the entire canonicalized package path, in
which case it is empty. -/
theorem modulePath_canonical_nonempty_unless_full_strip
    (ctx : Context) (n : TypeName) :
    (∀ x ∈ modulePath ctx n, ∃ s, x = identName s) ∧
    (ctx.strip.isPrefixOf (rawModulePath n.package) = true →
      modulePath ctx n = (rawModulePath n.package).drop ctx.strip.length) ∧
    (ctx.strip.isPrefixOf (rawModulePath n.package) = false →
      modulePath ctx n = rawModulePath n.package) ∧
    (modulePath ctx n = [] ↔ ctx.strip = rawModulePath n.package) := by
  refine ⟨?_, ?_, ?_, ?_⟩
  · intro x hx
    have hraw : x ∈ rawModulePath n.package := by
      unfold modulePath at hx
      by_cases h : ctx.strip.isPrefixOf (rawModulePath n.package)
      · rw [if_pos h] at hx
        exact List.mem_of_mem_drop hx
      · rwa [if_neg h] at hx
    unfold rawModulePath at hraw
    rcases List.mem_map.mp hraw with ⟨w, _, hw⟩
    exact ⟨String.mk w, hw.symm⟩
  · intro h
    unfold modulePath
    rw [if_pos h]
  · intro h
    unfold modulePath
    rw [if_neg (by simp [h])]
  · by_cases h : ctx.strip.isPrefixOf (rawModulePath n.package)
    · have hpre : ctx.strip <+: rawModulePath n.package :=
        List.isPrefixOf_iff_prefix.mp h
      unfold modulePath
      rw [if_pos h]
      constructor
      · intro hdrop
        have hlen : (rawModulePath n.package).length ≤ ctx.strip.length := by
          have h0 := congrArg List.length hdrop
          simp at h0
          omega
        rcases hpre with ⟨t, ht⟩
        have hlen2 : ctx.strip.length + t.length =
            (rawModulePath n.package).length := by
          rw [← ht]; simp
        have ht0 : t.length = 0 := by omega
        have : t = [] := List.length_eq_zero.mp ht0
        rw [this] at ht
        simpa using ht
      · intro heq
        rw [heq]
        simp
    · have hraw := rawModulePath_ne_nil n.package
      unfold modulePath
      rw [if_neg (by simp [h])]
      constructor
      · intro hnil; exact absurd hnil hraw
      · intro heq
        rw [heq] at h
        have hrefl : (rawModulePath n.package).isPrefixOf
            (rawModulePath n.package) = true :=
          List.isPrefixOf_iff_prefix.mpr (List.prefix_refl _)
        exact absurd hrefl h

/-- C5 witness: a proper strip prefix (`com` over package `com.example`)
is dropped, leaving the nonempty canonical remainder `["example"]`. -/
theorem modulePath_canonical_witness :
    modulePath stripSomeCtx stripAllName =
      (rawModulePath stripAllName.package).drop stripSomeCtx.strip.length ∧
    modulePath stripSomeCtx stripAllName = ["example"] := by
  refine ⟨(modulePath_canonical_nonempty_unless_full_strip stripSomeCtx
    stripAllName).2.1 rfl, rfl⟩

/-- C6: for an Object field of type `optional<reference n>` where `n` is
declared as an Object or Union, the stored field type computed by
`boxed_rust_type` (which objects/object.rs applies to every field, see
`objectFieldStorageTypes`) places one level of owning indirection inside the
Option: `Option<Box<path-to-n>>`, for every fuel — including when `n` is the
containing object itself, which is what keeps a self-referential object
finite-sized. -/
theorem optional_reference_field_boxed_inside_option
    (ctx : Context) (fuel : Nat) (thisName n : TypeName)
    (od : ObjectDefinition)
    (h1 : ctxGet ctx thisName = some (.object od))
    (h2 : (∃ o, ctxGet ctx n = some (.object o)) ∨
          (∃ u, ctxGet ctx n = some (.union u))) :
    boxedRustType ctx fuel thisName (.optional (.reference n)) =
      some (optionIdent thisName ++ [Tok.punct "<"] ++
        (boxIdent n ++ [Tok.punct "<"] ++ typePath ctx thisName n ++
          [Tok.punct ">"]) ++ [Tok.punct ">"]) := by
  rcases h2 with ⟨o, h2⟩ | ⟨u, h2⟩ <;>
    simp [boxedRustType, refBoxedRustType, h1, h2]

/-- C6 witness: `object Node { next: optional<Node> }` stores its field as
`Option<Box<super::Node>>`. -/
theorem optional_reference_field_boxed_witness :
    ctxGet nodeCtx nodeName = some (.object nodeObjDef) ∧
    boxedRustType nodeCtx 0 nodeName (.optional (.reference nodeName)) =
      some [Tok.ident "Option", Tok.punct "<", Tok.ident "Box", Tok.punct "<",
            Tok.ident "super", Tok.punct "::", Tok.ident "Node", Tok.punct ">",
            Tok.punct ">"] ∧
    objectFieldStorageTypes nodeCtx 0 nodeObjDef =
      some [[Tok.ident "Option", Tok.punct "<", Tok.ident "Box", Tok.punct "<",
             Tok.ident "super", Tok.punct "::", Tok.ident "Node", Tok.punct ">",
             Tok.punct ">"]] := by
  refine ⟨rfl, ?_, rfl⟩
  rw [optional_reference_field_boxed_inside_option nodeCtx 0 nodeName nodeName
    nodeObjDef rfl (Or.inl ⟨nodeObjDef, rfl⟩)]
  rfl

/-- C7: deserializing the serialization of a `DoubleAliasExample` yields the
value back, and the result is equal to the original under the type's own
(NaN-total) equality — also when the payload is a NaN bit pattern, where IEEE
equality would fail; `Conflict` round-trips even when the decoder input
contains extra unknown fields, which its visitor consumes and drops. -/
theorem serde_roundtrip_double_alias_conflict :
    (∀ v : DoubleAliasExample,
      deserializeDoubleAliasExample (serializeDoubleAliasExample v) = some v) ∧
    (∀ v w : DoubleAliasExample,
      deserializeDoubleAliasExample (serializeDoubleAliasExample v) = some w →
        doubleAliasExampleEq w v = true) ∧
    (∀ c : Conflict, serializeConflict c = .vmap []) ∧
    (∀ (c : Conflict) (extras : List (String × JValue)),
      deserializeConflict (.vmap extras) = some c) := by
  refine ⟨fun v => rfl, ?_, fun c => rfl, ?_⟩
  · intro v w h
    have hw : w = v := by
      have : some v = some w := by
        calc some v = deserializeDoubleAliasExample
              (serializeDoubleAliasExample v) := rfl
          _ = some w := h
      exact (Option.some.inj this).symm
    rw [hw]
    unfold doubleAliasExampleEq
    exact doubleOpsEq_refl v.f0
  · intro c extras
    show conflictVisitMap extras = some c
    rw [conflictVisitMap_any extras]

/-- A NaN bit pattern: exponent all ones, mantissa 1. -/
def exampleNanBits : F64 :=
  0x7FF0000000000001

/-- C7 witness: the round trip at the NaN bit pattern, and a `Conflict`
decoded from a map carrying an unknown field. -/
theorem serde_roundtrip_witness :
    deserializeDoubleAliasExample
        (serializeDoubleAliasExample ⟨exampleNanBits⟩) =
      some ⟨exampleNanBits⟩ ∧
    doubleAliasExampleEq ⟨exampleNanBits⟩ ⟨exampleNanBits⟩ = true ∧
    deserializeConflict (.vmap [("unknownField", .vstring "x")]) = some {} := by
  refine ⟨serde_roundtrip_double_alias_conflict.1 ⟨exampleNanBits⟩, ?_, ?_⟩
  · exact serde_roundtrip_double_alias_conflict.2.1 ⟨exampleNanBits⟩
      ⟨exampleNanBits⟩ (serde_roundtrip_double_alias_conflict.1 ⟨exampleNanBits⟩)
  · exact serde_roundtrip_double_alias_conflict.2.2.2 {}
      [("unknownField", .vstring "x")]

/-- C9: the generated client for `GET /test/queryParams` with
`normal = "hello world"` and `list = [1, 2]` produces the URI
`/test/queryParams?normal=hello%20world&list=1&list=2` — the space encoded as
`%20` and one `name=value` pair per sequence element — with method GET, and a
JSON-accepting endpoint carries `Accept: application/json` (query encoding
modelled from the spec; expected strings match the fixtures in
conjure-test/src/test/clients.rs). -/
theorem queryParams_uri_encoding :
    queryParamUri "hello world" [1, 2] =
      "/test/queryParams?normal=hello%20world&list=1&list=2" ∧
    queryParamUri "foo" [] = "/test/queryParams?normal=foo" ∧
    queryParamsEndpointMethod = HttpMethod.get ∧
    acceptHeader .json = [("Accept", "application/json")] := by
  exact ⟨rfl, rfl, rfl, rfl⟩

/-- The `is_default` / `has_default` source classification agrees with the
specification's table, fuel for fuel, on both entry points. -/
theorem isDefault_eq_spec_aux (ctx : Context) (fuel : Nat) :
    (∀ t, isDefault ctx fuel t = hasDefaultSpec ctx fuel t) ∧
    (∀ n, refIsDefault ctx fuel n = refHasDefaultSpec ctx fuel n) := by
  induction fuel with
  | zero => exact ⟨fun t => rfl, fun n => rfl⟩
  | succ fuel ih =>
    refine ⟨fun t => ?_, fun n => ?_⟩
    · cases t with
      | primitive p => cases p <;> rfl
      | optional it => rfl
      | list it => rfl
      | set it => rfl
      | map k v => rfl
      | reference n => exact ih.2 n
      | external r fb => exact ih.1 fb
    · cases h : ctxGet ctx n with
      | none => simp [refIsDefault, refHasDefaultSpec, h]
      | some d =>
        cases d
        · simp only [refIsDefault, refHasDefaultSpec, h]
          exact ih.1 _
        · simp [refIsDefault, refHasDefaultSpec, h]
        · simp [refIsDefault, refHasDefaultSpec, h]
        · simp [refIsDefault, refHasDefaultSpec, h]

/-- C10: `has_default` (source: `Context::is_default`) is exactly the
classification the specification's table defines — true for
String/Integer/Double/Safelong/Binary/Boolean, false for
Datetime/Any/Uuid/Rid/Bearertoken, true for every container, Alias and
External recurse, Enum/Object/Union false — stated as equality with an
independent rendering of the table. -/
theorem isDefault_matches_spec_table (ctx : Context) (fuel : Nat) (t : CType) :
    isDefault ctx fuel t = hasDefaultSpec ctx fuel t :=
  (isDefault_eq_spec_aux ctx fuel).1 t

/-- C8 counterexample: an object with a field literally named `Builder` (not
`builder`) still has its builder entry point renamed to `builder_`, because
the source checks the canonicalized field idents (`objects::fields`), not the
literal field names — refuting the claim's "if and only if a field is
literally named `builder`". -/
theorem builder_rename_on_canonical_ident :
    builderMethodName builderFieldObj = "builder_" ∧
    builderFieldObj.fields.any (fun f => f.fieldName == "builder") = false := by
  exact ⟨rfl, rfl⟩

/-- C8 amended: the direct constructor is emitted exactly when the object has
fewer than 4 fields; its symbol is `new`, renamed to `new_` iff a field is
literally named `new`; the builder entry point is `builder`, renamed to
`builder_` iff some field's canonicalized (snake-cased, keyword-escaped)
identifier equals `builder`. -/
theorem object_ctor_builder_names (od : ObjectDefinition) :
    (constructorEmitted od = true ↔ od.fields.length < 4) ∧
    (constructorName od = "new_" ↔ ∃ f ∈ od.fields, f.fieldName = "new") ∧
    (builderMethodName od = "builder_" ↔
      ∃ f ∈ od.fields, identName f.fieldName = "builder") := by
  refine ⟨?_, ?_, ?_⟩
  · simp [constructorEmitted, objectFieldIdents]
  · cases h : od.fields.any (fun f => f.fieldName == "new") with
    | false =>
      simp [constructorName, hasFieldLiterallyNew, h]
      simp only [List.any_eq_false] at h
      rintro f hf hname
      exact absurd (by simp [hname]) (h f hf)
    | true =>
      simp [constructorName, hasFieldLiterallyNew, h]
      simp only [List.any_eq_true] at h
      rcases h with ⟨f, hf, hp⟩
      exact ⟨f, hf, by simpa using hp⟩
  · cases h : (od.fields.map (fun f => identName f.fieldName)).any
        (fun f => f == "builder") with
    | false =>
      simp [builderMethodName, objectFieldIdents, h]
      simp only [List.any_eq_false] at h
      rintro f hf hname
      have hx : identName f.fieldName ∈
          od.fields.map (fun f => identName f.fieldName) :=
        List.mem_map_of_mem _ hf
      exact absurd (by simp [hname]) (h _ hx)
    | true =>
      simp [builderMethodName, objectFieldIdents, h]
      simp only [List.any_eq_true] at h
      rcases h with ⟨x, hx, hp⟩
      rcases List.mem_map.mp hx with ⟨f, hf, hfx⟩
      refine ⟨f, hf, ?_⟩
      rw [hfx]
      simpa using hp

end Conjure
